import Mathlib

/-!
Verification of the oliver workflow-reporting client's query pipeline:
the status selector, time-window bound, batch clusterer, query pipeline
(`get_workflows` in workflows.py / `call` in subcommands/status.py) and the
summary aggregator (`print_workflow_summary`).

Workflow records are embedded as a structure carrying the fields the
pipeline reads (`id`, `status`, `submission`); submission timestamps are
integers expressed in the same unit as the batch gap threshold (minutes).
The fetch collaborator (`cromwell.get_workflows_query`) is external: the
pipeline functions take its result list as an argument.  Fallible code
(Python's `max([])` raising `ValueError`) is embedded in `Except`.
-/

namespace Oliver

/-- A workflow record as returned by the fetch collaborator, restricted to
the fields the core pipeline reads: `id`, `status`, and the `submission`
timestamp (an integer, in the same time unit as the gap threshold). -/
structure Workflow where
  id : String
  status : String
  submission : Int
deriving DecidableEq

/-- Embeds workflows.py lines 90-97: the inline status-selector of
`get_workflows`.  All four flags false yields `none` (no status
filtering); otherwise the list of opted-in statuses, appended in the
fixed order Running, Aborted, Failed, Succeeded. -/
def statusesOf (optRunning optAborted optFailed optSucceeded : Bool) :
    Option (List String) :=
  if optRunning || optAborted || optFailed || optSucceeded then
    some ((if optRunning then ["Running"] else []) ++
          (if optAborted then ["Aborted"] else []) ++
          (if optFailed then ["Failed"] else []) ++
          (if optSucceeded then ["Succeeded"] else []))
  else
    none

/-- Embeds subcommands/status.py lines 160-192 (`get_statuses_to_query`):
identical logic to the inline selector of workflows.py, reading the four
`show_*_statuses` flags. -/
def get_statuses_to_query (showRunning showAborted showFailed showSucceeded : Bool) :
    Option (List String) :=
  if showRunning || showAborted || showFailed || showSucceeded then
    some ((if showRunning then ["Running"] else []) ++
          (if showAborted then ["Aborted"] else []) ++
          (if showFailed then ["Failed"] else []) ++
          (if showSucceeded then ["Succeeded"] else []))
  else
    none

/-- Spec-side definition (§4.1/§9): the statuses whose flag is true, in the
fixed canonical order Running, Aborted, Failed, Succeeded.  Written from
the spec's words, to be compared with the code-side selectors. -/
def canonicalStatuses (r a f s : Bool) : List String :=
  ([("Running", r), ("Aborted", a), ("Failed", f), ("Succeeded", s)].filter
    (fun p => p.2)).map (fun p => p.1)

/-- Stable insertion of a workflow into a list sorted ascending by
submission: placed before the first strictly-later-or-equal element, so
equal keys keep their relative order (Python's `sorted` is stable). -/
def orderedInsertWf (w : Workflow) : List Workflow → List Workflow
  | [] => [w]
  | x :: xs =>
      if w.submission ≤ x.submission then w :: x :: xs
      else x :: orderedInsertWf w xs

/-- Embeds the `sorted(..., key=lambda k: k["submission"])` step of
workflows.py line 112 / status.py line 39: stable sort ascending by
submission timestamp. -/
def sortWf : List Workflow → List Workflow
  | [] => []
  | w :: ws => orderedInsertWf w (sortWf ws)

/-- Modelled from the spec (§4.4): `batch.batch_workflows` lives in the
unexposed batch.py module, absent from src/.  Walks the (sorted) sequence
once; `prev` is the previous record's timestamp and `idx` the current
batch index.  If the gap `timestamp − prev` is ≥ the threshold, the index
is incremented before being assigned; `prev` is then updated to this
record's timestamp. -/
def batchGo (interval : Int) : Int → Nat → List Workflow → List (Workflow × Nat)
  | _, _, [] => []
  | prev, idx, w :: ws =>
      if interval ≤ w.submission - prev then
        (w, idx + 1) :: batchGo interval w.submission (idx + 1) ws
      else
        (w, idx) :: batchGo interval w.submission idx ws

/-- Modelled from the spec (§4.4): `batch.batch_workflows` (batch.py is
absent from src/).  The first record is assigned batch index 0 and seeds
`previous_timestamp`; the rest are processed by `batchGo`.  Each record
is returned annotated with its batch index. -/
def batch_workflows (workflows : List Workflow) (interval : Int) :
    List (Workflow × Nat) :=
  match workflows with
  | [] => []
  | w :: ws => (w, 0) :: batchGo interval w.submission 0 ws

/-- Python's `max` over a list of batch indices: `none` on the empty list
(where Python raises `ValueError: max() arg is an empty sequence`),
otherwise the left fold of `Nat.max`. -/
def listMax? : List Nat → Option Nat
  | [] => none
  | x :: xs => some (xs.foldl Nat.max x)

/-- Embeds the `if statuses:` guard and filter of workflows.py lines
130-131 / status.py lines 59-60: Python truthiness, so `None` and the
empty list both skip the filter. -/
def applyStatusFilter (statuses : Option (List String)) (workflows : List Workflow) :
    List Workflow :=
  match statuses with
  | none => workflows
  | some ss => if ss.isEmpty then workflows else
      workflows.filter (fun w => ss.contains w.status)

/-- Embeds `get_workflows` of workflows.py (lines 90-133), with the fetch
collaborator's result passed in as `fetched`.  Pipeline: compute the
status selector; sort by submission; if a batch selector is present,
cluster, take `max` of the batch indices (raising on the empty list, as
`max([])` does), select the target batch `max − batch_number_ago`; then
apply the status filter. -/
def get_workflows (fetched : List Workflow)
    (batch_number_ago : Option Int) (batch_interval_mins : Int)
    (optRunning optAborted optFailed optSucceeded : Bool) :
    Except String (List Workflow) :=
  let statuses := statusesOf optRunning optAborted optFailed optSucceeded
  let workflows := sortWf fetched
  match batch_number_ago with
  | none => Except.ok (applyStatusFilter statuses workflows)
  | some n =>
      let batched := batch_workflows workflows batch_interval_mins
      match listMax? (batched.map Prod.snd) with
      | none => Except.error "max() arg is an empty sequence"
      | some maxBatch =>
          let target : Int := (maxBatch : Int) - n
          let selected := (batched.filter
            (fun p => (p.2 : Int) = target)).map Prod.fst
          Except.ok (applyStatusFilter statuses selected)

end Oliver

namespace Oliver

/-- A Python `datetime` instant, reduced to what the time-window filter
manipulates: whole seconds plus a sub-second microsecond component.
Calendar rendering is external (§1). -/
structure PyDateTime where
  seconds : Int
  microsecond : Nat
deriving DecidableEq

/-- `datetime.now() - datetime.timedelta(hours=h)`: shifts the instant
back by whole hours, leaving the microsecond part untouched. -/
def pySubHours (d : PyDateTime) (h : Int) : PyDateTime :=
  ⟨d.seconds - 3600 * h, d.microsecond⟩

/-- `.replace(microsecond=0)`: truncation to whole seconds. -/
def pyTruncate (d : PyDateTime) : PyDateTime :=
  ⟨d.seconds, 0⟩

/-- Embeds workflows.py lines 106-110 (and the identical status.py lines
33-37): the submission lower bound is computed only for a present,
positive hours-ago value, as
`(now - timedelta(hours=h)).replace(microsecond=0).isoformat("T") + "Z"`.
The ISO-8601 calendar rendering `isoformat` is an external library call
(§1) and is passed in as a parameter. -/
def submissionBound (isoformat : PyDateTime → String) (now : PyDateTime)
    (submission_time_hours_ago : Option Int) : Option String :=
  match submission_time_hours_ago with
  | none => none
  | some h =>
      if 0 < h then some (isoformat (pyTruncate (pySubHours now h)) ++ "Z")
      else none

/-- The metadata record returned by the fetch collaborator's per-workflow
metadata call, restricted to what the summary reads: a status (possibly
more current than the listing) and the label mapping. -/
structure Metadata where
  status : String
  labels : List (String × String)
deriving DecidableEq

/-- Modelled from the spec: the well-known job-group label key of
`constants.py`, which is absent from src/ (its exact literal is
immaterial to the claims). -/
def OLIVER_JOB_GROUP_KEY : String := "oliver_job_group"

/-- Modelled from the spec: `utils.get_oliver_group` (utils.py is absent
from src/) extracts the job-group label value from a metadata record. -/
def get_oliver_group (m : Metadata) : Option String :=
  m.labels.lookup OLIVER_JOB_GROUP_KEY

/-- Embeds the group resolution of `print_workflow_summary` (status.py
lines 206-209): `if not job_group:` is Python falsiness, so a missing
label and an empty-string label both become the `"<not set>"`
sentinel. -/
def groupOrNotSet (m : Metadata) : String :=
  match get_oliver_group m with
  | none => "<not set>"
  | some g => if g = "" then "<not set>" else g

/-- Lookup in an association list with a default, as
`defaultdict.__getitem__` reads. -/
def lookupD {α : Type} (k : String) (dflt : α) : List (String × α) → α
  | [] => dflt
  | (k', v) :: rest => if k' = k then v else lookupD k dflt rest

/-- Update an association list at a key through `f`, inserting
`f dflt` when the key is absent, as `defaultdict` mutation does. -/
def updAssoc {α : Type} (k : String) (f : α → α) (dflt : α) :
    List (String × α) → List (String × α)
  | [] => [(k, f dflt)]
  | (k', v) :: rest =>
      if k' = k then (k', f v) :: rest else (k', v) :: updAssoc k f dflt rest

/-- Embeds the loop body of `print_workflow_summary` (status.py lines
205-211): bump the nested counter at the record's resolved job-group and
its metadata status. -/
def aggStep (metadatas : String → Metadata)
    (agg : List (String × List (String × Nat))) (w : Workflow) :
    List (String × List (String × Nat)) :=
  updAssoc (groupOrNotSet (metadatas w.id))
    (updAssoc (metadatas w.id).status (· + 1) 0) [] agg

/-- Embeds the aggregation of `print_workflow_summary` (status.py lines
203-211): a nested defaultdict, represented as an association list,
folded over the final workflow set. -/
def print_workflow_summary_agg (workflows : List Workflow)
    (metadatas : String → Metadata) : List (String × List (String × Nat)) :=
  workflows.foldl (aggStep metadatas) []

/-- Spec-side count (§4.6): the number of final workflows whose resolved
job-group and metadata status equal the given pair. -/
def summarySpecCount (workflows : List Workflow) (metadatas : String → Metadata)
    (g s : String) : Nat :=
  (workflows.filter (fun w =>
    decide (groupOrNotSet (metadatas w.id) = g) &&
    decide ((metadatas w.id).status = s))).length

/-- Spec-side variant of the status-filter step (§9/§4.5): filtering is
guarded by a `None` test alone, never by collection emptiness. -/
def applyStatusFilterIfSome (statuses : Option (List String))
    (workflows : List Workflow) : List Workflow :=
  match statuses with
  | none => workflows
  | some ss => workflows.filter (fun w => ss.contains w.status)

/-- The five-record example of spec §8: submissions T+0, T+2m, T+3m,
T+10m, T+11m. -/
def exampleWorkflows : List Workflow :=
  [⟨"w0", "Succeeded", 0⟩, ⟨"w1", "Succeeded", 2⟩, ⟨"w2", "Failed", 3⟩,
   ⟨"w3", "Running", 10⟩, ⟨"w4", "Running", 11⟩]

/-! ### Lemmas about the batch clusterer -/

/-- The clustering walk annotates exactly the records it was given, in
order. -/
theorem batchGo_map_fst (interval : Int) (prev : Int) (idx : Nat)
    (ws : List Workflow) : (batchGo interval prev idx ws).map Prod.fst = ws := by
  induction ws generalizing prev idx with
  | nil => rfl
  | cons w ws ih =>
      rw [batchGo]
      split <;> simp [ih]

/-- `batch_workflows` annotates exactly the records it was given, in
order: the batches partition the input. -/
theorem batch_workflows_map_fst (ws : List Workflow) (interval : Int) :
    (batch_workflows ws interval).map Prod.fst = ws := by
  cases ws with
  | nil => rfl
  | cons w ws => simp [batch_workflows, batchGo_map_fst]

/-- Consecutive records in the clustering walk either share a batch index
(gap below the threshold) or step it by one (gap at least the
threshold). -/
theorem batchGo_chain (interval : Int) (w : Workflow) (idx : Nat)
    (ws : List Workflow) :
    List.Chain'
      (fun p q : Workflow × Nat =>
        (q.2 = p.2 ∧ q.1.submission - p.1.submission < interval) ∨
        (q.2 = p.2 + 1 ∧ interval ≤ q.1.submission - p.1.submission))
      ((w, idx) :: batchGo interval w.submission idx ws) := by
  induction ws generalizing w idx with
  | nil => exact List.chain'_singleton _
  | cons x ws ih =>
      rw [batchGo]
      split
      case isTrue h =>
        rw [List.chain'_cons]
        exact ⟨Or.inr ⟨rfl, h⟩, ih x (idx + 1)⟩
      case isFalse h =>
        rw [List.chain'_cons]
        refine ⟨Or.inl ⟨rfl, ?_⟩, ih x idx⟩
        show x.submission - w.submission < interval
        omega

/-- Batch indices never decrease along the clustering walk. -/
theorem batchGo_snd_chain (interval : Int) (w : Workflow) (idx : Nat)
    (ws : List Workflow) :
    List.Chain' (fun p q : Workflow × Nat => p.2 ≤ q.2)
      ((w, idx) :: batchGo interval w.submission idx ws) := by
  induction ws generalizing w idx with
  | nil => exact List.chain'_singleton _
  | cons x ws ih =>
      rw [batchGo]
      split
      · rw [List.chain'_cons]
        exact ⟨Nat.le_succ idx, ih x (idx + 1)⟩
      · rw [List.chain'_cons]
        exact ⟨Nat.le_refl idx, ih x idx⟩

/-- On a non-decreasing list, the Python-style `max` fold returns the last
element. -/
theorem getLast?_eq_foldl_max (xs : List Nat) :
    ∀ x : Nat, List.Chain' (· ≤ ·) (x :: xs) →
      (x :: xs).getLast? = some (xs.foldl Nat.max x) := by
  induction xs with
  | nil => intro x _; rfl
  | cons y ys ih =>
      intro x h
      rw [List.chain'_cons] at h
      obtain ⟨hxy, h'⟩ := h
      rw [List.getLast?_cons_cons, List.foldl_cons,
        show Nat.max x y = y from Nat.max_eq_right hxy]
      exact ih y h'

/-- Stable insertion preserves length. -/
theorem length_orderedInsertWf (w : Workflow) (l : List Workflow) :
    (orderedInsertWf w l).length = l.length + 1 := by
  induction l with
  | nil => rfl
  | cons x xs ih =>
      rw [orderedInsertWf]
      split <;> simp [ih]

/-- The submission sort preserves length. -/
theorem length_sortWf (ws : List Workflow) : (sortWf ws).length = ws.length := by
  induction ws with
  | nil => rfl
  | cons w ws ih => simp [sortWf, length_orderedInsertWf, ih]

/-- The submission sort of a non-empty list is non-empty. -/
theorem sortWf_ne_nil (ws : List Workflow) (h : ws ≠ []) : sortWf ws ≠ [] := by
  intro hnil
  have := length_sortWf ws
  rw [hnil] at this
  exact h (List.length_eq_zero.mp this.symm)

/-- Filtering keeps the last element when it satisfies the predicate. -/
theorem getLast?_filter_of_last {α : Type} (p : α → Bool) :
    ∀ (l : List α) (x : α), l.getLast? = some x → p x = true →
      (l.filter p).getLast? = some x := by
  intro l
  induction l with
  | nil => intro x h _; cases h
  | cons a l ih =>
      intro x h hp
      cases l with
      | nil =>
          have hx : a = x := by simpa using h
          subst hx
          simp [List.filter_cons, hp]
      | cons b l' =>
          rw [List.getLast?_cons_cons] at h
          have h2 := ih x h hp
          rw [List.filter_cons]
          split
          · cases hf : (b :: l').filter p with
            | nil => rw [hf] at h2; simp at h2
            | cons c cs =>
                rw [hf] at h2
                rw [List.getLast?_cons_cons]
                exact h2
          · exact h2

/-- The status filter of an empty selection is empty, whatever the
selector. -/
theorem applyStatusFilter_nil (st : Option (List String)) :
    applyStatusFilter st [] = [] := by
  cases st with
  | none => rfl
  | some ss => cases ss <;> simp [applyStatusFilter]

/-! ### Lemmas about the summary aggregation -/

/-- Reading back the key just updated applies the update to the previous
value (or to the default when the key was absent). -/
theorem lookupD_updAssoc_same {α : Type} (k : String) (f : α → α) (dflt : α)
    (l : List (String × α)) :
    lookupD k dflt (updAssoc k f dflt l) = f (lookupD k dflt l) := by
  induction l with
  | nil => simp [updAssoc, lookupD]
  | cons p rest ih =>
      obtain ⟨k', v⟩ := p
      by_cases h : k' = k
      · simp [updAssoc, lookupD, h]
      · simp [updAssoc, lookupD, h, ih]

/-- Updating one key leaves every other key's value unchanged. -/
theorem lookupD_updAssoc_of_ne {α : Type} (k j : String) (hne : j ≠ k)
    (f : α → α) (dflt dflt' : α) (l : List (String × α)) :
    lookupD k dflt (updAssoc j f dflt' l) = lookupD k dflt l := by
  induction l with
  | nil => simp [updAssoc, lookupD, hne]
  | cons p rest ih =>
      obtain ⟨k', v⟩ := p
      by_cases h : k' = j
      · subst h
        simp [updAssoc, lookupD, hne]
      · simp [updAssoc, lookupD, h, ih]

/-- The aggregation fold counts, at every (group, status) cell, the
matching records on top of whatever the accumulator already held. -/
theorem agg_lookup (metadatas : String → Metadata) (g s : String) :
    ∀ (ws : List Workflow) (agg : List (String × List (String × Nat))),
      lookupD s 0 (lookupD g [] (ws.foldl (aggStep metadatas) agg)) =
        lookupD s 0 (lookupD g [] agg) + summarySpecCount ws metadatas g s := by
  intro ws
  induction ws with
  | nil => intro agg; simp [summarySpecCount]
  | cons w ws ih =>
      intro agg
      rw [List.foldl_cons, ih]
      have hstep : lookupD s 0 (lookupD g [] (aggStep metadatas agg w)) =
          lookupD s 0 (lookupD g [] agg) +
            (if groupOrNotSet (metadatas w.id) = g ∧ (metadatas w.id).status = s
              then 1 else 0) := by
        unfold aggStep
        by_cases hg : groupOrNotSet (metadatas w.id) = g
        · rw [hg, lookupD_updAssoc_same]
          by_cases hs' : (metadatas w.id).status = s
          · rw [hs', lookupD_updAssoc_same]
            simp [hg, hs']
          · rw [lookupD_updAssoc_of_ne s _ hs']
            simp [hg, hs']
        · rw [lookupD_updAssoc_of_ne g _ hg]
          simp [hg]
      have hcount : summarySpecCount (w :: ws) metadatas g s =
          (if groupOrNotSet (metadatas w.id) = g ∧ (metadatas w.id).status = s
            then 1 else 0) + summarySpecCount ws metadatas g s := by
        unfold summarySpecCount
        rw [List.filter_cons]
        by_cases hg : groupOrNotSet (metadatas w.id) = g <;>
          by_cases hs' : (metadatas w.id).status = s <;>
            simp [hg, hs', Nat.add_comm]
      rw [hstep, hcount]
      omega

/-! ### Lemmas about the status selectors -/

/-- The code-side selector never produces an explicit empty list. -/
theorem statusesOf_ne_some_nil :
    ∀ r a f s : Bool, statusesOf r a f s ≠ some [] := by decide

/-- When at least one flag is set, the code-side selector produces exactly
the canonical-ordered subset of the spec. -/
theorem statusesOf_eq_canonical :
    ∀ r a f s : Bool, (r || a || f || s) = true →
      statusesOf r a f s = some (canonicalStatuses r a f s) := by decide

/-- When at least one flag is set, the canonical subset is non-empty. -/
theorem canonicalStatuses_ne_nil :
    ∀ r a f s : Bool, (r || a || f || s) = true →
      canonicalStatuses r a f s ≠ [] := by decide

/-! ### Claim theorems -/

/-- Claim C1 (evaluation at the failing input): with no workflow records
fetched and a batch selector present, `get_workflows` evaluates
`max([w["batch"] for w in workflows])` on the empty list, which raises
`ValueError` instead of returning the empty sequence. -/
theorem empty_input_batch_selector_raises :
    get_workflows [] (some 0) 5 false false false false =
      Except.error "max() arg is an empty sequence" := by
  rfl

/-- Claim C3: with all four flags false, `get_statuses_to_query` returns
the unrestricted sentinel `none` (not an empty set); with at least one
flag true, it returns exactly the statuses whose flag is true, in the
fixed canonical order Running, Aborted, Failed, Succeeded. -/
theorem get_statuses_to_query_correct :
    ∀ r a f s : Bool,
      (get_statuses_to_query r a f s = none ↔ (r || a || f || s) = false) ∧
      ((r || a || f || s) = true →
        get_statuses_to_query r a f s = some (canonicalStatuses r a f s)) := by
  decide

/-- Witness for claim C3 at a concrete flag combination. -/
theorem get_statuses_to_query_correct_witness :
    (true || false || false || true) = true ∧
    get_statuses_to_query true false false true =
      some (canonicalStatuses true false false true) :=
  ⟨by decide, (get_statuses_to_query_correct true false false true).2 (by decide)⟩

/-- Claim C7: on the five records submitted at T+0, T+2m, T+3m, T+10m,
T+11m with threshold 5 minutes, the clusterer assigns batch indices
[0,0,0,1,1]; `batch_number_ago = 0` selects exactly the last two records
and `batch_number_ago = 1` exactly the first three. -/
theorem batch_example_five_records :
    (batch_workflows exampleWorkflows 5).map Prod.snd = [0, 0, 0, 1, 1] ∧
    get_workflows exampleWorkflows (some 0) 5 false false false false =
      Except.ok [⟨"w3", "Running", 10⟩, ⟨"w4", "Running", 11⟩] ∧
    get_workflows exampleWorkflows (some 1) 5 false false false false =
      Except.ok [⟨"w0", "Succeeded", 0⟩, ⟨"w1", "Succeeded", 2⟩,
        ⟨"w2", "Failed", 3⟩] :=
  ⟨by decide, by rfl, by rfl⟩

/-- Claim C10: the status selector feeding the query never produces an
explicit empty list — it is `none` or a non-empty list — so the Python
truthiness test `if statuses:` guarding the filter step coincides with a
plain `None` test, and the unrestricted/empty-set ambiguity is
unreachable through this interface. -/
theorem statuses_never_empty_list :
    ∀ r a f s : Bool,
      statusesOf r a f s ≠ some [] ∧
      ∀ ws : List Workflow,
        applyStatusFilter (statusesOf r a f s) ws =
          applyStatusFilterIfSome (statusesOf r a f s) ws := by
  intro r a f s
  refine ⟨statusesOf_ne_some_nil r a f s, fun ws => ?_⟩
  cases hop : statusesOf r a f s with
  | none => rfl
  | some ss =>
      cases ss with
      | nil => exact absurd hop (statusesOf_ne_some_nil r a f s)
      | cons x xs => simp [applyStatusFilter, applyStatusFilterIfSome]

/-- Claim C4: for every submission-sorted input and positive gap
threshold, the clusterer's output partitions the input (each record is
annotated exactly once, in order), and each consecutive pair of records
either shares a batch index with a gap strictly below the threshold or
starts a new adjacent batch with a gap of at least the threshold. -/
theorem batch_workflows_invariants (ws : List Workflow) (interval : Int)
    (hsorted : List.Chain' (fun a b : Workflow => a.submission ≤ b.submission) ws)
    (hpos : 0 < interval) :
    (batch_workflows ws interval).map Prod.fst = ws ∧
    List.Chain'
      (fun p q : Workflow × Nat =>
        (q.2 = p.2 ∧ q.1.submission - p.1.submission < interval) ∨
        (q.2 = p.2 + 1 ∧ interval ≤ q.1.submission - p.1.submission))
      (batch_workflows ws interval) := by
  refine ⟨batch_workflows_map_fst ws interval, ?_⟩
  cases ws with
  | nil => exact List.chain'_nil
  | cons w ws => exact batchGo_chain interval w 0 ws

/-- Witness for claim C4 on the five-record example with threshold 5. -/
theorem batch_workflows_invariants_witness :
    (List.Chain' (fun a b : Workflow => a.submission ≤ b.submission)
        exampleWorkflows ∧ 0 < (5 : Int)) ∧
    ((batch_workflows exampleWorkflows 5).map Prod.fst = exampleWorkflows ∧
      List.Chain'
        (fun p q : Workflow × Nat =>
          (q.2 = p.2 ∧ q.1.submission - p.1.submission < 5) ∨
          (q.2 = p.2 + 1 ∧ 5 ≤ q.1.submission - p.1.submission))
        (batch_workflows exampleWorkflows 5)) :=
  ⟨⟨by simp only [exampleWorkflows, List.chain'_cons, List.chain'_singleton,
      and_true]; decide, by decide⟩,
   batch_workflows_invariants exampleWorkflows 5
     (by simp only [exampleWorkflows, List.chain'_cons, List.chain'_singleton,
       and_true]; decide)
     (by decide)⟩

/-- Claim C2: with a batch selector and a non-trivial status selection
both present, the query equals the status-unrestricted query — which
clusters and selects over the full submission-sorted candidate set —
followed by status filtering of the selected batch alone. -/
theorem status_filter_after_batch_selection (fetched : List Workflow)
    (n interval : Int) (r a f s : Bool) (h : (r || a || f || s) = true) :
    get_workflows fetched (some n) interval r a f s =
      Except.map
        (fun l : List Workflow =>
          l.filter (fun w => (canonicalStatuses r a f s).contains w.status))
        (get_workflows fetched (some n) interval false false false false) := by
  have hcanon := statusesOf_eq_canonical r a f s h
  have hne := canonicalStatuses_ne_nil r a f s h
  have hfalse : statusesOf false false false false = none := rfl
  obtain ⟨c, cs, hcc⟩ := List.exists_cons_of_ne_nil hne
  simp only [get_workflows, hcanon, hfalse, hcc]
  cases hm : listMax? ((batch_workflows (sortWf fetched) interval).map Prod.snd) with
  | none => rfl
  | some m => simp [applyStatusFilter, Except.map]

/-- Witness for claim C2 on the five-record example with the Running flag
set. -/
theorem status_filter_after_batch_selection_witness :
    (true || false || false || false) = true ∧
    get_workflows exampleWorkflows (some 0) 5 true false false false =
      Except.map
        (fun l : List Workflow =>
          l.filter
            (fun w => (canonicalStatuses true false false false).contains w.status))
        (get_workflows exampleWorkflows (some 0) 5 false false false false) :=
  ⟨by decide,
   status_filter_after_batch_selection exampleWorkflows 0 5 true false false
     false (by decide)⟩

/-- On a non-empty clustering, the maximum batch index is attained by the
last (chronologically latest) record, and filtering to that index keeps
the last record last. -/
theorem batch_zero_core (w : Workflow) (ws : List Workflow) (interval : Int) :
    ∃ m : Nat,
      listMax? ((batch_workflows (w :: ws) interval).map Prod.snd) = some m ∧
      (batch_workflows (w :: ws) interval).getLast?.map Prod.snd = some m ∧
      (((batch_workflows (w :: ws) interval).filter
          (fun p => (p.2 : Int) = (m : Int) - 0)).map Prod.fst).getLast?
        = (w :: ws).getLast? := by
  have hchain := batchGo_snd_chain interval w 0 ws
  have hchainN : List.Chain' (· ≤ ·)
      (((w, 0) :: batchGo interval w.submission 0 ws).map Prod.snd) :=
    List.chain'_map_of_chain' Prod.snd (fun a b hab => hab) hchain
  have hlastN := getLast?_eq_foldl_max
    ((batchGo interval w.submission 0 ws).map Prod.snd) 0 (by simpa using hchainN)
  refine ⟨((batchGo interval w.submission 0 ws).map Prod.snd).foldl Nat.max 0,
    rfl, ?_, ?_⟩
  case _ =>
    have hm : ((batch_workflows (w :: ws) interval).map Prod.snd).getLast? =
        some (((batchGo interval w.submission 0 ws).map Prod.snd).foldl Nat.max 0) := by
      simpa [batch_workflows] using hlastN
    rw [List.getLast?_map] at hm
    exact hm
  case _ =>
    have hm : ((batch_workflows (w :: ws) interval).map Prod.snd).getLast? =
        some (((batchGo interval w.submission 0 ws).map Prod.snd).foldl Nat.max 0) := by
      simpa [batch_workflows] using hlastN
    rw [List.getLast?_map] at hm
    obtain ⟨q, hq, hq2⟩ := Option.map_eq_some'.mp hm
    have hpred : (fun p : Workflow × Nat =>
        decide ((p.2 : Int) =
          ((((batchGo interval w.submission 0 ws).map Prod.snd).foldl Nat.max 0 : Nat) : Int) - 0)) q
          = true := by
      simp [hq2]
    have hfl := getLast?_filter_of_last
      (fun p : Workflow × Nat =>
        decide ((p.2 : Int) =
          ((((batchGo interval w.submission 0 ws).map Prod.snd).foldl Nat.max 0 : Nat) : Int) - 0))
      (batch_workflows (w :: ws) interval) q hq hpred
    have h1 : (((batch_workflows (w :: ws) interval).filter
        (fun p => (p.2 : Int) =
          ((((batchGo interval w.submission 0 ws).map Prod.snd).foldl Nat.max 0 : Nat) : Int) - 0)).map
          Prod.fst).getLast? = some q.1 := by
      rw [List.getLast?_map, hfl]
      rfl
    have h2 : (w :: ws).getLast? = some q.1 := by
      conv_lhs => rw [← batch_workflows_map_fst (w :: ws) interval]
      rw [List.getLast?_map, hq]
      rfl
    exact h1.trans h2.symm

/-- Claim C5: on non-empty input, `batch_number_ago = 0` selects exactly
the batch with the maximum assigned index, and that batch contains the
chronologically latest record (the last record of the sorted input,
which remains the last record of the result). -/
theorem batch_zero_selects_latest (fetched : List Workflow) (interval : Int)
    (hne : fetched ≠ []) :
    ∃ (m : Nat) (l : List Workflow),
      listMax? ((batch_workflows (sortWf fetched) interval).map Prod.snd)
        = some m ∧
      (batch_workflows (sortWf fetched) interval).getLast?.map Prod.snd
        = some m ∧
      get_workflows fetched (some 0) interval false false false false
        = Except.ok l ∧
      l = ((batch_workflows (sortWf fetched) interval).filter
            (fun p => (p.2 : Int) = (m : Int) - 0)).map Prod.fst ∧
      l.getLast? = (sortWf fetched).getLast? := by
  cases hs : sortWf fetched with
  | nil => exact absurd hs (sortWf_ne_nil fetched hne)
  | cons w ws =>
      obtain ⟨m, hmax, hlast, hfl⟩ := batch_zero_core w ws interval
      refine ⟨m, _, hmax, hlast, ?_, rfl, hfl⟩
      simp only [get_workflows, hs, hmax]
      rfl

/-- Witness for claim C5 on the five-record example with threshold 5. -/
theorem batch_zero_selects_latest_witness :
    exampleWorkflows ≠ [] ∧
    ∃ (m : Nat) (l : List Workflow),
      listMax? ((batch_workflows (sortWf exampleWorkflows) 5).map Prod.snd)
        = some m ∧
      (batch_workflows (sortWf exampleWorkflows) 5).getLast?.map Prod.snd
        = some m ∧
      get_workflows exampleWorkflows (some 0) 5 false false false false
        = Except.ok l ∧
      l = ((batch_workflows (sortWf exampleWorkflows) 5).filter
            (fun p => (p.2 : Int) = (m : Int) - 0)).map Prod.fst ∧
      l.getLast? = (sortWf exampleWorkflows).getLast? :=
  ⟨by decide, batch_zero_selects_latest exampleWorkflows 5 (by decide)⟩

/-- Claim C6: on non-empty input, a `batch_number_ago` strictly greater
than the maximum batch index (number of batches minus one) makes the
target index negative, so the query returns the empty sequence and no
error, whatever the status flags. -/
theorem batch_overshoot_empty (fetched : List Workflow) (interval n : Int)
    (m : Nat) (hne : fetched ≠ [])
    (hmax : listMax? ((batch_workflows (sortWf fetched) interval).map Prod.snd)
      = some m)
    (hover : (m : Int) < n) (r a f s : Bool) :
    get_workflows fetched (some n) interval r a f s = Except.ok [] := by
  simp only [get_workflows, hmax]
  have hfil : List.filter (fun p : Workflow × Nat => decide ((p.2 : Int) = (m : Int) - n))
      (batch_workflows (sortWf fetched) interval) = [] := by
    rw [List.filter_eq_nil_iff]
    intro p hp
    simp only [decide_eq_true_eq]
    omega
  rw [hfil, List.map_nil, applyStatusFilter_nil]

/-- Witness for claim C6 on the five-record example: its maximum batch
index is 1, and asking for 5 batches ago yields the empty result. -/
theorem batch_overshoot_empty_witness :
    (exampleWorkflows ≠ [] ∧
      listMax? ((batch_workflows (sortWf exampleWorkflows) 5).map Prod.snd)
        = some 1 ∧
      ((1 : Nat) : Int) < 5) ∧
    get_workflows exampleWorkflows (some 5) 5 false false false false =
      Except.ok [] :=
  ⟨⟨by decide, by decide, by decide⟩,
   batch_overshoot_empty exampleWorkflows 5 5 1 (by decide) (by decide)
     (by decide) false false false false⟩

/-- Claim C8: the submission lower bound is absent for a missing, zero,
or negative hours-ago value; for a positive value it equals the current
instant shifted back by that many hours, truncated to whole seconds, and
rendered by the external ISO-8601 formatter with a trailing "Z". -/
theorem submission_bound_correct (isoformat : PyDateTime → String)
    (now : PyDateTime) :
    submissionBound isoformat now none = none ∧
    (∀ h : Int, h ≤ 0 → submissionBound isoformat now (some h) = none) ∧
    (∀ h : Int, 0 < h →
      submissionBound isoformat now (some h) =
        some (isoformat ⟨now.seconds - 3600 * h, 0⟩ ++ "Z")) := by
  refine ⟨rfl, ?_, ?_⟩
  · intro h hle
    simp [submissionBound, not_lt.mpr hle]
  · intro h hpos
    simp [submissionBound, hpos, pySubHours, pyTruncate]

/-- Witness for claim C8 at a concrete formatter, instant, and positive
hours-ago value. -/
theorem submission_bound_correct_witness :
    0 < (2 : Int) ∧
    submissionBound (fun d => toString d.seconds) ⟨7200, 123⟩ (some 2) =
      some ((fun d : PyDateTime => toString d.seconds)
        ⟨(7200 : Int) - 3600 * 2, 0⟩ ++ "Z") :=
  ⟨by decide,
   (submission_bound_correct (fun d => toString d.seconds) ⟨7200, 123⟩).2.2 2
     (by decide)⟩

/-- Claim C9: at every (job-group, status) cell, the summary aggregation
equals the number of final records whose resolved group (the extracted
job-group label, `"<not set>"` when absent) and metadata status match; in
particular two records in group "alpha" with statuses Running and
Succeeded yield exactly the mapping alpha ↦ (Running ↦ 1, Succeeded ↦ 1). -/
theorem summary_aggregation_correct :
    (∀ (ws : List Workflow) (md : String → Metadata) (g s : String),
      lookupD s 0 (lookupD g [] (print_workflow_summary_agg ws md)) =
        summarySpecCount ws md g s) ∧
    print_workflow_summary_agg
        [⟨"id1", "Running", 0⟩, ⟨"id2", "Succeeded", 1⟩]
        (fun i => if i = "id1"
          then ⟨"Running", [(OLIVER_JOB_GROUP_KEY, "alpha")]⟩
          else ⟨"Succeeded", [(OLIVER_JOB_GROUP_KEY, "alpha")]⟩) =
      [("alpha", [("Running", 1), ("Succeeded", 1)])] := by
  constructor
  · intro ws md g s
    unfold print_workflow_summary_agg
    rw [agg_lookup]
    simp [lookupD]
  · decide

/-- Witness for claim C10 at a concrete flag combination and input. -/
theorem statuses_never_empty_list_witness :
    statusesOf true false false false ≠ some [] ∧
    applyStatusFilter (statusesOf true false false false) exampleWorkflows =
      applyStatusFilterIfSome (statusesOf true false false false)
        exampleWorkflows :=
  ⟨(statuses_never_empty_list true false false false).1,
   (statuses_never_empty_list true false false false).2 exampleWorkflows⟩

end Oliver
